import Mathlib

/-!
Verification of the StudyStack study tracker (`src/tracker.py`) against its
natural-language specification.

The development shallowly embeds the program:

* the on-disk CSV file (`study_history.csv`) is a `FileState`: absent, a
  legacy file lacking the `Breaks` column, or a current-format file;
* the helper functions `load_data` and `save_session` are translated
  directly from the source, with `datetime.now().strftime(...)` passed in
  as an explicit `now : String` and Python's `round(x, 2)` modelled by
  `round2` on exact rationals (round half to even on the hundredths grid);
* the Streamlit session state (`time_left`, `timer_running`,
  `initial_time`, `break_count`) is a `TimerSt`; the button handlers and
  the timer-logic block at the bottom of tab 1 become the `step` function
  on `AppState` (timer state plus file), one constructor of `Ev` per
  source handler or script pass, and `run` folds a list of events;
* the dashboard aggregations (`groupby("Subject").sum`, `idxmax`,
  `idxmin`) become `subject_stats`, `longest` and `shortest` on row lists.
-/

/-- One in-memory row of the history table, as produced by `load_data`
(columns `Date`, `Subject`, `Topic`, `Duration_Minutes`, `Breaks`). -/
structure SRow where
  date : String
  subject : String
  topic : String
  duration_minutes : ℚ
  breaks : Nat
deriving DecidableEq

/-- A row of an older-format file that lacks the `Breaks` column. -/
structure SRowNB where
  date : String
  subject : String
  topic : String
  duration_minutes : ℚ
deriving DecidableEq

/-- The persisted `DATA_FILE` (`study_history.csv`): absent, an
older-format file without the `Breaks` column, or a current-format file. -/
inductive FileState where
  | absent : FileState
  | legacy (rows : List SRowNB) : FileState
  | current (rows : List SRow) : FileState
deriving DecidableEq

/-- An in-memory pandas dataframe: its column labels and its rows. -/
structure DataFrame where
  cols : List String
  rows : List SRow
deriving DecidableEq

/-- The canonical column set used by `load_data` when the file is absent. -/
def canonicalCols : List String :=
  ["Date", "Subject", "Topic", "Duration_Minutes", "Breaks"]

/-- Columns of an older-format file, before `Breaks` is defaulted in. -/
def legacyCols : List String :=
  ["Date", "Subject", "Topic", "Duration_Minutes"]

/-- `load_data` from `tracker.py`: read the CSV if it exists, defaulting a
missing `Breaks` column to 0 (pandas appends the new column after the
existing ones); otherwise return an empty dataframe with the canonical
columns. -/
def load_data : FileState → DataFrame
  | FileState.absent => ⟨canonicalCols, []⟩
  | FileState.legacy rs =>
      ⟨legacyCols ++ ["Breaks"],
       rs.map (fun r => ⟨r.date, r.subject, r.topic, r.duration_minutes, 0⟩)⟩
  | FileState.current rs => ⟨canonicalCols, rs⟩

/-- Round half to even to an integer, the tie rule of Python's `round`. -/
def roundHalfEven (q : ℚ) : ℤ :=
  let n := ⌊q⌋
  let r := q - n
  if r < 1 / 2 then n
  else if 1 / 2 < r then n + 1
  else if n % 2 = 0 then n else n + 1

/-- Python's `round(x, 2)`: round to two decimal places, ties to even. -/
def round2 (q : ℚ) : ℚ := (roundHalfEven (q * 100) : ℚ) / 100

/-- `save_session` from `tracker.py`: load the current table, build the new
entry (with `Duration_Minutes` rounded to 2 decimal places), concatenate it
after the existing rows and write the whole table back with `to_csv`.
`datetime.now().strftime("%Y-%m-%d %H:%M")` is passed in as `now`. -/
def save_session (now subject topic : String) (duration_minutes : ℚ)
    (breaks : Nat) (f : FileState) : FileState :=
  FileState.current
    ((load_data f).rows ++ [⟨now, subject, topic, round2 duration_minutes, breaks⟩])

/-- The write effect of `df.to_csv(DATA_FILE, index=False)` when the
underlying file write fails: `to_csv` opens `DATA_FILE` for writing,
truncating it, and streams the table out; if the write stops after `k`
rows have been emitted, the file is left holding only those `k` rows. -/
def to_csv_interrupted (rows : List SRow) (k : Nat) : FileState :=
  FileState.current (rows.take k)

/-- `save_session` when the final `to_csv` write is interrupted after `k`
rows: the table that was meant to be written is the loaded rows plus the
new entry, and the file ends up holding only its first `k` rows. -/
def save_session_interrupted (now subject topic : String)
    (duration_minutes : ℚ) (breaks : Nat) (f : FileState) (k : Nat) : FileState :=
  to_csv_interrupted
    ((load_data f).rows ++ [⟨now, subject, topic, round2 duration_minutes, breaks⟩]) k

/-- The Streamlit session state driving the timer: `st.session_state`
fields `time_left`, `timer_running`, `initial_time`, `break_count`, all
initialised to zero / `False`. -/
structure TimerSt where
  time_left : Nat
  timer_running : Bool
  initial_time : Nat
  break_count : Nat
deriving DecidableEq

/-- Whole-app state: the timer session state plus the persisted file. -/
structure AppState where
  timer : TimerSt
  file : FileState
deriving DecidableEq

/-- The "Set / Reset Timer" handler: `total_seconds = hours*3600 +
minutes*60`; set `time_left` and `initial_time` to it, stop the timer and
zero the break counter. -/
def pressSetReset (hours minutes : Nat) (_s : TimerSt) : TimerSt :=
  let total_seconds := hours * 3600 + minutes * 60
  { time_left := total_seconds
    timer_running := false
    initial_time := total_seconds
    break_count := 0 }

/-- The "Start / Resume" handler: the button is only rendered when the
timer is not running, and it simply sets `timer_running = True`. -/
def pressStartResume (s : TimerSt) : TimerSt :=
  if s.timer_running then s else { s with timer_running := true }

/-- The "Pause" handler: the button is only rendered while running; it
stops the timer and increments `break_count`. -/
def pressPause (s : TimerSt) : TimerSt :=
  if s.timer_running then
    { s with timer_running := false, break_count := s.break_count + 1 }
  else s

/-- One pass of the timer-logic block at the bottom of tab 1: when running
with `time_left > 0`, sleep one second and decrement; when running with
`time_left == 0`, take the expiry branch: stop the timer, persist one
session via `save_session(subject, topic, initial_time/60, break_count)`
and zero `time_left`, `initial_time` and `break_count`. When not running
the block does nothing. The sidebar strings and the current wall-clock
date are passed in. -/
def timerLogic (now subject topic : String) (a : AppState) : AppState :=
  if a.timer.timer_running then
    if 0 < a.timer.time_left then
      { a with timer := { a.timer with time_left := a.timer.time_left - 1 } }
    else
      { timer := { time_left := 0, timer_running := false,
                   initial_time := 0, break_count := 0 }
        file := save_session now subject topic
                  ((a.timer.initial_time : ℚ) / 60) a.timer.break_count a.file }
  else a

/-- The user-visible events of one Streamlit script run: a button press
(Set/Reset, Start/Resume, Pause) or one pass of the timer-logic block. -/
inductive Ev where
  | configure (hours minutes : Nat) : Ev
  | startBtn : Ev
  | pauseBtn : Ev
  | timerPass (now subject topic : String) : Ev

/-- Apply one event to the application state. Button handlers touch only
the timer state; a timer pass may also append to the file. -/
def step : Ev → AppState → AppState
  | Ev.configure h m, a => { a with timer := pressSetReset h m a.timer }
  | Ev.startBtn, a => { a with timer := pressStartResume a.timer }
  | Ev.pauseBtn, a => { a with timer := pressPause a.timer }
  | Ev.timerPass now subj top, a => timerLogic now subj top a

/-- Run a sequence of events from a state. -/
def run (evs : List Ev) (a : AppState) : AppState :=
  evs.foldl (fun b e => step e b) a

/-- The freshly initialised session state: all counters zero, not running. -/
def initTimer : TimerSt :=
  { time_left := 0, timer_running := false, initial_time := 0, break_count := 0 }

/-- The progress fraction handed to `st.progress`: `min(1 -
time_left/initial_time, 1.0)` when `initial_time > 0`, else `0`. -/
def progressFrac (s : TimerSt) : ℚ :=
  if 0 < s.initial_time then
    min (1 - (s.time_left : ℚ) / (s.initial_time : ℚ)) 1
  else 0

/-- The timer invariant: the remaining time never exceeds the configured
initial time. -/
def timerInv (a : AppState) : Prop :=
  a.timer.time_left ≤ a.timer.initial_time

/-- A start/tick/pause schedule: `segTrace now subj top ks` presses
Start/Resume, lets the timer tick `ks.head` times, and between successive
segments presses Pause (so a run over `ks` issues `ks.length - 1` pauses,
each immediately followed by a resume). -/
def segTrace (now subj top : String) : List Nat → List Ev
  | [] => []
  | [k] => Ev.startBtn :: List.replicate k (Ev.timerPass now subj top)
  | k :: k2 :: rest =>
      Ev.startBtn ::
        (List.replicate k (Ev.timerPass now subj top) ++
          Ev.pauseBtn :: segTrace now subj top (k2 :: rest))

/-- `df.groupby("Subject")["Duration_Minutes"].sum()` evaluated at one
subject: the sum of `Duration_Minutes` over the rows with that subject. -/
def subject_stats (rows : List SRow) (subj : String) : ℚ :=
  ((rows.filter (fun r => r.subject == subj)).map
    (fun r => r.duration_minutes)).sum

/-- `df.loc[df['Duration_Minutes'].idxmax()]`: the first row attaining the
maximal duration, `none` on an empty table (where pandas raises). A later
row replaces the current candidate only when strictly longer, matching
`idxmax` returning the first occurrence of the maximum. -/
def longest : List SRow → Option SRow
  | [] => none
  | r :: rs =>
      match longest rs with
      | none => some r
      | some b =>
          if r.duration_minutes < b.duration_minutes then some b else some r

/-- `df.loc[df['Duration_Minutes'].idxmin()]`: the first row attaining the
minimal duration, `none` on an empty table. -/
def shortest : List SRow → Option SRow
  | [] => none
  | r :: rs =>
      match shortest rs with
      | none => some r
      | some b =>
          if b.duration_minutes < r.duration_minutes then some b else some r

/-!  ## Theorems  -/

/-- Rounding an integer-valued rational to two decimal places is the
identity. -/
theorem round2_intCast (n : ℤ) : round2 ((n : ℚ)) = (n : ℚ) := by
  have h1 : ((n : ℚ)) * 100 = ((n * 100 : ℤ) : ℚ) := by push_cast; ring
  have h2 : ⌊((n * 100 : ℤ) : ℚ)⌋ = n * 100 := Int.floor_intCast _
  simp only [round2, roundHalfEven, h1, h2]
  have h3 : ((n * 100 : ℤ) : ℚ) - ((n * 100 : ℤ) : ℚ) = 0 := by ring
  rw [h3, if_pos (by norm_num)]
  push_cast
  field_simp

/-- Rounding a natural-valued rational to two decimal places is the
identity. -/
theorem round2_natCast (n : ℕ) : round2 ((n : ℚ)) = (n : ℚ) := by
  have := round2_intCast (n : ℤ)
  push_cast at this
  exact this

/-- C9: when the persisted file is absent, `load_data` returns an empty
table whose column set is exactly the canonical columns `Date`, `Subject`,
`Topic`, `Duration_Minutes`, `Breaks`; being a total function it raises
nothing. -/
theorem c9_absent_file :
    load_data FileState.absent = ⟨canonicalCols, []⟩ ∧
    canonicalCols = ["Date", "Subject", "Topic", "Duration_Minutes", "Breaks"] :=
  ⟨rfl, rfl⟩

/-- C6: loading a file that lacks the `Breaks` column yields the same rows
with every `Breaks` entry equal to 0 and all other columns unchanged, and
the resulting column set is the canonical one. -/
theorem c6_legacy_breaks_default (rs : List SRowNB) :
    load_data (FileState.legacy rs) =
      ⟨canonicalCols,
       rs.map (fun r => ⟨r.date, r.subject, r.topic, r.duration_minutes, 0⟩)⟩ ∧
    (load_data (FileState.legacy rs)).rows.map (fun r => r.breaks) =
      List.replicate rs.length 0 := by
  constructor
  · rfl
  · simp [load_data, List.map_const', List.eq_replicate_iff]

/-- C5: `save_session` followed by `load_data` round-trips the appended
session: the resulting rows are exactly the previously loaded rows plus the
new entry, whose duration is the 2-decimal-place rounding of the given
`duration_minutes` and whose break count is preserved unchanged; in
particular the last row is the appended session. -/
theorem c5_append_load_roundtrip (f : FileState) (now subj top : String)
    (dm : ℚ) (breaks : Nat) :
    (load_data (save_session now subj top dm breaks f)).rows =
      (load_data f).rows ++ [⟨now, subj, top, round2 dm, breaks⟩] ∧
    (load_data (save_session now subj top dm breaks f)).rows.getLast? =
      some ⟨now, subj, top, round2 dm, breaks⟩ := by
  refine ⟨rfl, ?_⟩
  simp [save_session, load_data, List.getLast?_concat]

/-- Pressing Start/Resume on a stopped timer just sets the running flag. -/
theorem step_start_stopped (tl it bc : Nat) (f : FileState) :
    step Ev.startBtn ⟨⟨tl, false, it, bc⟩, f⟩ = ⟨⟨tl, true, it, bc⟩, f⟩ := rfl

/-- Pressing Pause on a running timer stops it and counts one break. -/
theorem step_pause_running (tl it bc : Nat) (f : FileState) :
    step Ev.pauseBtn ⟨⟨tl, true, it, bc⟩, f⟩ = ⟨⟨tl, false, it, bc + 1⟩, f⟩ := rfl

/-- A timer pass on a running timer with time remaining decrements
`time_left` by one and touches nothing else. -/
theorem step_tick_pos (now subj top : String) (tl it bc : Nat) (f : FileState)
    (h : 0 < tl) :
    step (Ev.timerPass now subj top) ⟨⟨tl, true, it, bc⟩, f⟩ =
      ⟨⟨tl - 1, true, it, bc⟩, f⟩ := by
  simp [step, timerLogic, h]

/-- A timer pass on a running timer with `time_left = 0` takes the expiry
branch: it persists one session built from `initial_time/60` minutes and
the current break count, and zeroes the whole timer state. -/
theorem step_tick_expire (now subj top : String) (it bc : Nat) (f : FileState) :
    step (Ev.timerPass now subj top) ⟨⟨0, true, it, bc⟩, f⟩ =
      ⟨⟨0, false, 0, 0⟩,
       FileState.current ((load_data f).rows ++
         [⟨now, subj, top, round2 ((it : ℚ) / 60), bc⟩])⟩ := rfl

/-- A timer pass on a stopped timer does nothing. -/
theorem step_tick_stopped (now subj top : String) (tl it bc : Nat) (f : FileState) :
    step (Ev.timerPass now subj top) ⟨⟨tl, false, it, bc⟩, f⟩ =
      ⟨⟨tl, false, it, bc⟩, f⟩ := rfl

/-- Running an appended event list runs the two parts in order. -/
theorem run_append (l1 l2 : List Ev) (a : AppState) :
    run (l1 ++ l2) a = run l2 (run l1 a) := by
  simp [run, List.foldl_append]

/-- Running a cons runs the head event first. -/
theorem run_cons (e : Ev) (l : List Ev) (a : AppState) :
    run (e :: l) a = run l (step e a) := rfl

/-- `k` timer passes on a running timer with at least `k` seconds left
decrement `time_left` by `k` and leave everything else (including the
file) unchanged. -/
theorem ticks_run (now subj top : String) :
    ∀ (k tl it bc : Nat) (f : FileState), k ≤ tl →
      run (List.replicate k (Ev.timerPass now subj top)) ⟨⟨tl, true, it, bc⟩, f⟩ =
        ⟨⟨tl - k, true, it, bc⟩, f⟩ := by
  intro k
  induction k with
  | zero => intro tl it bc f _; simp [run]
  | succ k ih =>
      intro tl it bc f hk
      rw [List.replicate_succ, run_cons,
        step_tick_pos now subj top tl it bc f (by omega),
        ih (tl - 1) it bc f (by omega)]
      have : tl - 1 - k = tl - (k + 1) := by omega
      rw [this]

/-- Running a whole start/tick/pause schedule from a stopped timer with
enough time left: the ticks subtract `ks.sum` seconds, the pauses add
`ks.length - 1` breaks, the timer is left running and the file is
untouched. -/
theorem segTrace_run (now subj top : String) :
    ∀ (ks : List Nat), ks ≠ [] →
      ∀ (tl it bc : Nat) (f : FileState), ks.sum ≤ tl →
        run (segTrace now subj top ks) ⟨⟨tl, false, it, bc⟩, f⟩ =
          ⟨⟨tl - ks.sum, true, it, bc + (ks.length - 1)⟩, f⟩ := by
  intro ks
  induction ks with
  | nil => intro h; exact absurd rfl h
  | cons k rest ih =>
      intro _ tl it bc f hsum
      cases rest with
      | nil =>
          rw [segTrace, run_cons, step_start_stopped,
            ticks_run now subj top k tl it bc f (by simpa using hsum)]
          simp
      | cons k2 rest2 =>
          have hk : k ≤ tl := by simp [List.sum_cons] at hsum; omega
          rw [segTrace, run_cons, step_start_stopped, run_append,
            ticks_run now subj top k tl it bc f hk, run_cons,
            step_pause_running,
            ih (by simp) (tl - k) it (bc + 1) f
              (by simp [List.sum_cons] at hsum ⊢; omega)]
          have h1 : tl - k - (k2 :: rest2).sum = tl - (k :: k2 :: rest2).sum := by
            simp [List.sum_cons]; omega
          have h2 : bc + 1 + ((k2 :: rest2).length - 1) =
              bc + ((k :: k2 :: rest2).length - 1) := by
            simp only [List.length_cons]
            omega
          rw [h1, h2]

/-- C1 as stated is false on the code: after `configure(0,0)` (so
`remaining = 0`), pressing Start / Resume does change the state machine —
`timer_running` flips to true — and the timer pass the rerun then triggers
persists a (zero-duration) session, so the file changes too. -/
theorem c1_counterexample :
    step Ev.startBtn (step (Ev.configure 0 0) ⟨initTimer, FileState.absent⟩) ≠
      step (Ev.configure 0 0) ⟨initTimer, FileState.absent⟩ ∧
    (step (Ev.timerPass "2024-01-01 00:00" "General" "Study Session")
        (step Ev.startBtn
          (step (Ev.configure 0 0) ⟨initTimer, FileState.absent⟩))).file ≠
      FileState.absent := by
  constructor
  · intro h
    have := congrArg (fun a => a.timer.timer_running) h
    simp [step, pressStartResume, pressSetReset, initTimer] at this
  · intro h
    have e : step Ev.startBtn (step (Ev.configure 0 0) ⟨initTimer, FileState.absent⟩) =
        ⟨⟨0, true, 0, 0⟩, FileState.absent⟩ := rfl
    rw [e, step_tick_expire] at h
    exact FileState.noConfusion h

/-- C1 amended: the Start / Resume handler has no `remaining > 0` guard.
From any non-running state with `time_left = 0`, pressing Start sets
`timer_running = true` (leaving everything else alone), and the timer pass
the rerun then triggers takes the expiry branch: it persists exactly one
session, built from `initial_time / 60` minutes (0.0 when the configured
duration was 0) and the current break count, and resets the whole timer
state to zero. No error is raised anywhere. -/
theorem c1_amended (s : TimerSt) (f : FileState) (now subj top : String)
    (hrun : s.timer_running = false) (h0 : s.time_left = 0) :
    step Ev.startBtn ⟨s, f⟩ = ⟨{ s with timer_running := true }, f⟩ ∧
    step (Ev.timerPass now subj top) (step Ev.startBtn ⟨s, f⟩) =
      ⟨⟨0, false, 0, 0⟩,
       FileState.current ((load_data f).rows ++
         [⟨now, subj, top, round2 ((s.initial_time : ℚ) / 60), s.break_count⟩])⟩ := by
  obtain ⟨tl, tr, it, bc⟩ := s
  dsimp at hrun h0
  subst hrun h0
  exact ⟨rfl, rfl⟩

/-- Witness for `c1_amended` at the state reached by `configure(0,0)` from
the initial state, over an absent history file. -/
theorem c1_amended_witness :
    step Ev.startBtn ⟨⟨0, false, 0, 0⟩, FileState.absent⟩ =
      ⟨{ (⟨0, false, 0, 0⟩ : TimerSt) with timer_running := true },
       FileState.absent⟩ ∧
    step (Ev.timerPass "2024-01-01 00:00" "General" "Study Session")
        (step Ev.startBtn ⟨⟨0, false, 0, 0⟩, FileState.absent⟩) =
      ⟨⟨0, false, 0, 0⟩,
       FileState.current ((load_data FileState.absent).rows ++
         [⟨"2024-01-01 00:00", "General", "Study Session",
           round2 ((((0 : Nat)) : ℚ) / 60), 0⟩])⟩ :=
  c1_amended ⟨0, false, 0, 0⟩ FileState.absent
    "2024-01-01 00:00" "General" "Study Session" rfl rfl

/-- C3 as stated is false on the code: with `configure(0,1)` (60 seconds)
and no pauses, ticking exactly 60 times leaves the machine still running
with `time_left = 0` and nothing persisted — `Expired` has not been
entered; the expiry happens only on the following timer pass. -/
theorem c3_counterexample :
    (run (Ev.configure 0 1 :: Ev.startBtn ::
          List.replicate 60
            (Ev.timerPass "2024-01-01 00:00" "General" "Study Session"))
        ⟨initTimer, FileState.absent⟩).file = FileState.absent ∧
    (run (Ev.configure 0 1 :: Ev.startBtn ::
          List.replicate 60
            (Ev.timerPass "2024-01-01 00:00" "General" "Study Session"))
        ⟨initTimer, FileState.absent⟩).timer = ⟨0, true, 60, 0⟩ := by
  have e1 : step (Ev.configure 0 1) ⟨initTimer, FileState.absent⟩ =
      ⟨⟨60, false, 60, 0⟩, FileState.absent⟩ := rfl
  have e2 : step Ev.startBtn (⟨⟨60, false, 60, 0⟩, FileState.absent⟩ : AppState) =
      ⟨⟨60, true, 60, 0⟩, FileState.absent⟩ := rfl
  have e3 := ticks_run "2024-01-01 00:00" "General" "Study Session"
    60 60 60 0 FileState.absent (le_refl 60)
  rw [run_cons, e1, run_cons, e2, e3]
  exact ⟨rfl, rfl⟩

/-- C3 amended: for valid `(hours, minutes)` with positive total seconds,
after `configure` a schedule that starts the timer, ticks the full total
(split into segments `ks` with a pause/resume pair between successive
segments, so `ks.length - 1` pauses are issued) leaves the machine running
with `time_left = 0` and the file untouched; the single timer pass after
that enters the expiry branch exactly once, persisting one session whose
break count equals the number of pauses issued, and resets the timer. -/
theorem c3_amended (h m : Nat) (ks : List Nat) (f : FileState)
    (now subj top : String) (hh : h ≤ 24) (hm : m ≤ 59) (hks : ks ≠ [])
    (hsum : ks.sum = h * 3600 + m * 60) (hpos : 0 < h * 3600 + m * 60) :
    run (segTrace now subj top ks) (step (Ev.configure h m) ⟨initTimer, f⟩) =
      ⟨⟨0, true, h * 3600 + m * 60, ks.length - 1⟩, f⟩ ∧
    step (Ev.timerPass now subj top)
        ⟨⟨0, true, h * 3600 + m * 60, ks.length - 1⟩, f⟩ =
      ⟨⟨0, false, 0, 0⟩,
       FileState.current ((load_data f).rows ++
         [⟨now, subj, top, ((60 * h + m : Nat) : ℚ), ks.length - 1⟩])⟩ := by
  constructor
  · have e1 : step (Ev.configure h m) ⟨initTimer, f⟩ =
        ⟨⟨h * 3600 + m * 60, false, h * 3600 + m * 60, 0⟩, f⟩ := rfl
    rw [e1, segTrace_run now subj top ks hks _ _ _ f (le_of_eq hsum), hsum]
    simp
  · rw [step_tick_expire]
    have hd : ((h * 3600 + m * 60 : Nat) : ℚ) / 60 = ((60 * h + m : Nat) : ℚ) := by
      push_cast; ring
    rw [hd, round2_natCast]

/-- Witness for `c3_amended`: the spec's own second scenario,
`configure(0,1)`, tick 10 times, pause, resume, tick 50 times; one pause
is counted and the pass after the 60th tick persists `breakCount = 1`
and `durationMinutes = 1.0`. -/
theorem c3_amended_witness :
    run (segTrace "2024-01-01 00:00" "General" "Study Session" [10, 50])
        (step (Ev.configure 0 1) ⟨initTimer, FileState.absent⟩) =
      ⟨⟨0, true, 60, 1⟩, FileState.absent⟩ ∧
    step (Ev.timerPass "2024-01-01 00:00" "General" "Study Session")
        ⟨⟨0, true, 60, 1⟩, FileState.absent⟩ =
      ⟨⟨0, false, 0, 0⟩,
       FileState.current ((load_data FileState.absent).rows ++
         [⟨"2024-01-01 00:00", "General", "Study Session",
           (((1 : Nat)) : ℚ), 1⟩])⟩ :=
  c3_amended 0 1 [10, 50] FileState.absent
    "2024-01-01 00:00" "General" "Study Session"
    (by norm_num) (by norm_num) (by simp) (by decide) (by norm_num)

/-- C4's example as stated is false on the code: `configure(0,25)` then
start then exactly 1500 timer passes persists nothing — the file is
untouched; the session is only written by the following pass. -/
theorem c4_counterexample :
    (run (Ev.configure 0 25 :: Ev.startBtn ::
          List.replicate 1500
            (Ev.timerPass "2024-01-01 00:00" "General" "Study Session"))
        ⟨initTimer, FileState.absent⟩).file = FileState.absent := by
  have e1 : step (Ev.configure 0 25) ⟨initTimer, FileState.absent⟩ =
      ⟨⟨1500, false, 1500, 0⟩, FileState.absent⟩ := rfl
  have e2 : step Ev.startBtn (⟨⟨1500, false, 1500, 0⟩, FileState.absent⟩ : AppState) =
      ⟨⟨1500, true, 1500, 0⟩, FileState.absent⟩ := rfl
  rw [run_cons, e1, run_cons, e2,
    ticks_run "2024-01-01 00:00" "General" "Study Session"
      1500 1500 1500 0 FileState.absent (le_refl 1500)]

/-- C4 amended: on entering the expiry branch (a timer pass with the timer
running and `time_left = 0`) exactly one session is emitted and appended,
built from `initial_time / 60` minutes (rounded to 2 decimal places) and
the current break count, and afterwards `time_left`, `initial_time` and
`break_count` are all reset to zero. The example scenario needs one pass
beyond the 1500 ticks: `configure(0,25)` → start → 1501 timer passes
persists exactly `durationMinutes = 25.0` with `breakCount = 0`. -/
theorem c4_amended (s : TimerSt) (f : FileState) (now subj top : String)
    (hrun : s.timer_running = true) (h0 : s.time_left = 0) :
    step (Ev.timerPass now subj top) ⟨s, f⟩ =
      ⟨⟨0, false, 0, 0⟩,
       FileState.current ((load_data f).rows ++
         [⟨now, subj, top, round2 ((s.initial_time : ℚ) / 60), s.break_count⟩])⟩ ∧
    run (Ev.configure 0 25 :: Ev.startBtn ::
          List.replicate 1501 (Ev.timerPass now subj top))
        ⟨initTimer, FileState.absent⟩ =
      ⟨⟨0, false, 0, 0⟩,
       FileState.current [⟨now, subj, top, ((25 : Nat) : ℚ), 0⟩]⟩ := by
  constructor
  · obtain ⟨tl, tr, it, bc⟩ := s
    dsimp at hrun h0
    subst hrun h0
    rfl
  · have e1 : step (Ev.configure 0 25) ⟨initTimer, FileState.absent⟩ =
        ⟨⟨1500, false, 1500, 0⟩, FileState.absent⟩ := rfl
    have e2 : step Ev.startBtn
        (⟨⟨1500, false, 1500, 0⟩, FileState.absent⟩ : AppState) =
        ⟨⟨1500, true, 1500, 0⟩, FileState.absent⟩ := rfl
    rw [run_cons, e1, run_cons, e2, List.replicate_succ', run_append,
      ticks_run now subj top 1500 1500 1500 0 FileState.absent (le_refl 1500)]
    show step (Ev.timerPass now subj top)
        (⟨⟨0, true, 1500, 0⟩, FileState.absent⟩ : AppState) = _
    rw [step_tick_expire]
    have hd : (((1500 : Nat)) : ℚ) / 60 = ((25 : Nat) : ℚ) := by norm_num
    rw [hd, round2_natCast]
    simp [load_data]

/-- Witness for `c4_amended` at a running, fully ticked-down state with a
nonzero configured duration and two recorded breaks. -/
theorem c4_amended_witness :
    step (Ev.timerPass "2024-01-01 00:00" "General" "Study Session")
        ⟨⟨0, true, 300, 2⟩, FileState.absent⟩ =
      ⟨⟨0, false, 0, 0⟩,
       FileState.current ((load_data FileState.absent).rows ++
         [⟨"2024-01-01 00:00", "General", "Study Session",
           round2 ((((300 : Nat)) : ℚ) / 60), 2⟩])⟩ ∧
    run (Ev.configure 0 25 :: Ev.startBtn ::
          List.replicate 1501
            (Ev.timerPass "2024-01-01 00:00" "General" "Study Session"))
        ⟨initTimer, FileState.absent⟩ =
      ⟨⟨0, false, 0, 0⟩,
       FileState.current [⟨"2024-01-01 00:00", "General", "Study Session",
         ((25 : Nat) : ℚ), 0⟩]⟩ :=
  c4_amended ⟨0, true, 300, 2⟩ FileState.absent
    "2024-01-01 00:00" "General" "Study Session" rfl rfl

/-- C2: the claimed atomic-or-nothing append does not hold of the code.
`save_session` rewrites `DATA_FILE` in place with `to_csv` (truncate and
stream; no temporary file and rename), so a write that fails before any
row is emitted leaves an empty file and the previously persisted row is
lost; only a completed write yields the old rows plus the new one. -/
theorem c2_code_bug :
    save_session_interrupted "2024-01-02 10:00" "Physics" "Waves" 20 0
        (FileState.current [⟨"2024-01-01 09:00", "Math", "Algebra", 30, 1⟩]) 0 =
      FileState.current [] ∧
    FileState.current ([] : List SRow) ≠
      FileState.current [⟨"2024-01-01 09:00", "Math", "Algebra", 30, 1⟩] ∧
    save_session "2024-01-02 10:00" "Physics" "Waves" 20 0
        (FileState.current [⟨"2024-01-01 09:00", "Math", "Algebra", 30, 1⟩]) =
      FileState.current [⟨"2024-01-01 09:00", "Math", "Algebra", 30, 1⟩,
        ⟨"2024-01-02 10:00", "Physics", "Waves", round2 20, 0⟩] := by
  refine ⟨rfl, ?_, rfl⟩
  simp

/-- C7: the per-subject duration sums computed by the Subject groupby are
invariant under any permutation of the table's rows. -/
theorem c7_subject_stats_perm (rows rows2 : List SRow)
    (hp : rows.Perm rows2) (subj : String) :
    subject_stats rows subj = subject_stats rows2 subj := by
  unfold subject_stats
  exact ((hp.filter _).map _).sum_eq

/-- Witness for `c7_subject_stats_perm` on a two-row table and its swap. -/
theorem c7_subject_stats_perm_witness :
    subject_stats [⟨"2024-01-01 09:00", "Math", "Algebra", 10, 0⟩,
        ⟨"2024-01-02 09:00", "Bio", "Cells", 20, 1⟩] "Math" =
      subject_stats [⟨"2024-01-02 09:00", "Bio", "Cells", 20, 1⟩,
        ⟨"2024-01-01 09:00", "Math", "Algebra", 10, 0⟩] "Math" :=
  c7_subject_stats_perm _ _ (List.Perm.swap _ _ _) "Math"

/-- Unfold `longest` on a cons cell. -/
theorem longest_cons (r : SRow) (rs : List SRow) :
    longest (r :: rs) =
      match longest rs with
      | none => some r
      | some b =>
          if r.duration_minutes < b.duration_minutes then some b else some r := rfl

/-- Unfold `shortest` on a cons cell. -/
theorem shortest_cons (r : SRow) (rs : List SRow) :
    shortest (r :: rs) =
      match shortest rs with
      | none => some r
      | some b =>
          if b.duration_minutes < r.duration_minutes then some b else some r := rfl

/-- `longest` of a nonempty table is some row. -/
theorem longest_cons_isSome (r : SRow) (rs : List SRow) :
    (longest (r :: rs)).isSome := by
  rw [longest_cons]
  cases longest rs with
  | none => rfl
  | some b => dsimp only; split <;> rfl

/-- `shortest` of a nonempty table is some row. -/
theorem shortest_cons_isSome (r : SRow) (rs : List SRow) :
    (shortest (r :: rs)).isSome := by
  rw [shortest_cons]
  cases shortest rs with
  | none => rfl
  | some b => dsimp only; split <;> rfl

/-- `longest` returns `none` only on the empty table. -/
theorem longest_eq_none (rs : List SRow) (h : longest rs = none) : rs = [] := by
  cases rs with
  | nil => rfl
  | cons a as =>
      have := longest_cons_isSome a as
      rw [h] at this
      simp at this

/-- `shortest` returns `none` only on the empty table. -/
theorem shortest_eq_none (rs : List SRow) (h : shortest rs = none) : rs = [] := by
  cases rs with
  | nil => rfl
  | cons a as =>
      have := shortest_cons_isSome a as
      rw [h] at this
      simp at this

/-- `longest` on a cons when the tail is empty-valued. -/
theorem longest_cons_none (r : SRow) (rs : List SRow) (h : longest rs = none) :
    longest (r :: rs) = some r := by
  rw [longest_cons, h]

/-- `longest` on a cons when the tail has a maximal row. -/
theorem longest_cons_some (r b : SRow) (rs : List SRow) (h : longest rs = some b) :
    longest (r :: rs) =
      if r.duration_minutes < b.duration_minutes then some b else some r := by
  rw [longest_cons, h]

/-- `shortest` on a cons when the tail is empty-valued. -/
theorem shortest_cons_none (r : SRow) (rs : List SRow) (h : shortest rs = none) :
    shortest (r :: rs) = some r := by
  rw [shortest_cons, h]

/-- `shortest` on a cons when the tail has a minimal row. -/
theorem shortest_cons_some (r b : SRow) (rs : List SRow) (h : shortest rs = some b) :
    shortest (r :: rs) =
      if b.duration_minutes < r.duration_minutes then some b else some r := by
  rw [shortest_cons, h]

/-- The row selected by `longest` bounds every duration from above, and
every row strictly before it in load order is strictly shorter: `idxmax`
selects the first occurrence of the maximum. -/
theorem longest_first_max :
    ∀ (rows : List SRow) (mx : SRow), longest rows = some mx →
      (∀ x ∈ rows, x.duration_minutes ≤ mx.duration_minutes) ∧
      ∃ l1 l2, rows = l1 ++ mx :: l2 ∧
        ∀ x ∈ l1, x.duration_minutes < mx.duration_minutes := by
  intro rows
  induction rows with
  | nil => intro mx h; exact absurd h (by simp [longest])
  | cons r rs ih =>
      intro mx hmx
      cases hrs : longest rs with
      | none =>
          rw [longest_cons_none r rs hrs] at hmx
          have hnil : rs = [] := longest_eq_none rs hrs
          have hr : r = mx := by simpa using hmx
          subst hr
          subst hnil
          refine ⟨?_, [], [], rfl, by simp⟩
          intro x hx
          have : x = r := by simpa using hx
          subst this
          exact le_refl _
      | some b =>
          rw [longest_cons_some r b rs hrs] at hmx
          obtain ⟨hb, l1, l2, hdec, hpre⟩ := ih b hrs
          by_cases hlt : r.duration_minutes < b.duration_minutes
          · rw [if_pos hlt] at hmx
            have hbm : b = mx := by simpa using hmx
            subst hbm
            constructor
            · intro x hx
              rcases List.mem_cons.mp hx with rfl | hx'
              · exact le_of_lt hlt
              · exact hb x hx'
            · refine ⟨r :: l1, l2, by rw [hdec]; rfl, ?_⟩
              intro x hx
              rcases List.mem_cons.mp hx with rfl | hx'
              · exact hlt
              · exact hpre x hx'
          · rw [if_neg hlt] at hmx
            have hr : r = mx := by simpa using hmx
            subst hr
            have hle : b.duration_minutes ≤ r.duration_minutes := not_lt.mp hlt
            constructor
            · intro x hx
              rcases List.mem_cons.mp hx with rfl | hx'
              · exact le_refl _
              · exact le_trans (hb x hx') hle
            · exact ⟨[], rs, rfl, by simp⟩

/-- The row selected by `shortest` bounds every duration from below, and
every row strictly before it in load order is strictly longer: `idxmin`
selects the first occurrence of the minimum. -/
theorem shortest_first_min :
    ∀ (rows : List SRow) (mn : SRow), shortest rows = some mn →
      (∀ x ∈ rows, mn.duration_minutes ≤ x.duration_minutes) ∧
      ∃ l1 l2, rows = l1 ++ mn :: l2 ∧
        ∀ x ∈ l1, mn.duration_minutes < x.duration_minutes := by
  intro rows
  induction rows with
  | nil => intro mn h; exact absurd h (by simp [shortest])
  | cons r rs ih =>
      intro mn hmn
      cases hrs : shortest rs with
      | none =>
          rw [shortest_cons_none r rs hrs] at hmn
          have hnil : rs = [] := shortest_eq_none rs hrs
          have hr : r = mn := by simpa using hmn
          subst hr
          subst hnil
          refine ⟨?_, [], [], rfl, by simp⟩
          intro x hx
          have : x = r := by simpa using hx
          subst this
          exact le_refl _
      | some b =>
          rw [shortest_cons_some r b rs hrs] at hmn
          obtain ⟨hb, l1, l2, hdec, hpre⟩ := ih b hrs
          by_cases hlt : b.duration_minutes < r.duration_minutes
          · rw [if_pos hlt] at hmn
            have hbm : b = mn := by simpa using hmn
            subst hbm
            constructor
            · intro x hx
              rcases List.mem_cons.mp hx with rfl | hx'
              · exact le_of_lt hlt
              · exact hb x hx'
            · refine ⟨r :: l1, l2, by rw [hdec]; rfl, ?_⟩
              intro x hx
              rcases List.mem_cons.mp hx with rfl | hx'
              · exact hlt
              · exact hpre x hx'
          · rw [if_neg hlt] at hmn
            have hr : r = mn := by simpa using hmn
            subst hr
            have hle : r.duration_minutes ≤ b.duration_minutes := not_lt.mp hlt
            constructor
            · intro x hx
              rcases List.mem_cons.mp hx with rfl | hx'
              · exact le_refl _
              · exact le_trans hle (hb x hx')
            · exact ⟨[], rs, rfl, by simp⟩

/-- C8: on a one-row table the records view returns that row as both the
longest and the shortest session; on any nonempty table both are defined
(nothing is raised); and in general `longest`/`shortest` return the first
occurrence, in load order, of the maximal/minimal duration, so ties are
broken towards the earlier row. -/
theorem c8_records :
    (∀ r : SRow, longest [r] = some r ∧ shortest [r] = some r) ∧
    (∀ (r : SRow) (rs : List SRow),
      (longest (r :: rs)).isSome ∧ (shortest (r :: rs)).isSome) ∧
    (∀ (rows : List SRow) (mx : SRow), longest rows = some mx →
      (∀ x ∈ rows, x.duration_minutes ≤ mx.duration_minutes) ∧
      ∃ l1 l2, rows = l1 ++ mx :: l2 ∧
        ∀ x ∈ l1, x.duration_minutes < mx.duration_minutes) ∧
    (∀ (rows : List SRow) (mn : SRow), shortest rows = some mn →
      (∀ x ∈ rows, mn.duration_minutes ≤ x.duration_minutes) ∧
      ∃ l1 l2, rows = l1 ++ mn :: l2 ∧
        ∀ x ∈ l1, mn.duration_minutes < x.duration_minutes) := by
  refine ⟨fun r => ⟨rfl, rfl⟩, fun r rs => ⟨longest_cons_isSome r rs, shortest_cons_isSome r rs⟩, longest_first_max, shortest_first_min⟩

/-- Witness for `c8_records` on a single row and on a two-row table whose
durations tie: the first row is selected as longest and as shortest, and
both bounds from the first-occurrence characterisation are realised. -/
theorem c8_records_witness :
    longest [⟨"2024-01-01 09:00", "Math", "Algebra", 10, 0⟩] =
      some ⟨"2024-01-01 09:00", "Math", "Algebra", 10, 0⟩ ∧
    shortest [⟨"2024-01-01 09:00", "Math", "Algebra", 10, 0⟩] =
      some ⟨"2024-01-01 09:00", "Math", "Algebra", 10, 0⟩ ∧
    (longest [⟨"2024-01-01 09:00", "Math", "Algebra", 10, 0⟩,
        ⟨"2024-01-02 09:00", "Bio", "Cells", 10, 1⟩]).isSome = true ∧
    (shortest [⟨"2024-01-01 09:00", "Math", "Algebra", 10, 0⟩,
        ⟨"2024-01-02 09:00", "Bio", "Cells", 10, 1⟩]).isSome = true ∧
    (⟨"2024-01-02 09:00", "Bio", "Cells", 10, 1⟩ : SRow).duration_minutes ≤
      (⟨"2024-01-01 09:00", "Math", "Algebra", 10, 0⟩ : SRow).duration_minutes ∧
    (⟨"2024-01-01 09:00", "Math", "Algebra", 10, 0⟩ : SRow).duration_minutes ≤
      (⟨"2024-01-02 09:00", "Bio", "Cells", 10, 1⟩ : SRow).duration_minutes :=
  ⟨(c8_records.1 _).1,
   (c8_records.1 _).2,
   (c8_records.2.1 _ _).1,
   (c8_records.2.1 _ _).2,
   (c8_records.2.2.1 [⟨"2024-01-01 09:00", "Math", "Algebra", 10, 0⟩,
      ⟨"2024-01-02 09:00", "Bio", "Cells", 10, 1⟩] _ (by decide)).1 _ (by simp),
   (c8_records.2.2.2 [⟨"2024-01-01 09:00", "Math", "Algebra", 10, 0⟩,
      ⟨"2024-01-02 09:00", "Bio", "Cells", 10, 1⟩] _ (by decide)).1 _ (by simp)⟩

/-- Every single step preserves the timer invariant `time_left ≤
initial_time`: Set/Reset establishes it, Start/Pause don't touch the
counters, a tick only decrements `time_left`, and expiry zeroes both. -/
theorem step_timerInv (e : Ev) (a : AppState) (h : timerInv a) :
    timerInv (step e a) := by
  obtain ⟨⟨tl, tr, it, bc⟩, f⟩ := a
  simp only [timerInv] at h
  cases e with
  | configure hh mm => simp [timerInv, step, pressSetReset]
  | startBtn => cases tr <;> simpa [timerInv, step, pressStartResume] using h
  | pauseBtn => cases tr <;> simpa [timerInv, step, pressPause] using h
  | timerPass n s t =>
      cases tr
      · simpa [timerInv, step, timerLogic] using h
      · by_cases hpos : 0 < tl
        · simp only [timerInv, step, timerLogic]
          simp only [if_pos hpos]
          simp at h ⊢
          omega
        · simp [timerInv, step, timerLogic, hpos]

/-- The timer invariant holds along any event sequence. -/
theorem run_timerInv (evs : List Ev) : ∀ a, timerInv a → timerInv (run evs a) := by
  induction evs with
  | nil => intro a h; simpa [run] using h
  | cons e l ih =>
      intro a h
      rw [run_cons]
      exact ih _ (step_timerInv e a h)

/-- With `time_left ≤ initial_time`, the progress value handed to the UI
is within `[0, 1]`, and when `initial_time > 0` the `min` clamp is inert:
the value is exactly `1 - time_left / initial_time`. -/
theorem progressFrac_bounds (s : TimerSt) (h : s.time_left ≤ s.initial_time) :
    0 ≤ progressFrac s ∧ progressFrac s ≤ 1 ∧
    (0 < s.initial_time →
      progressFrac s = 1 - (s.time_left : ℚ) / (s.initial_time : ℚ)) := by
  unfold progressFrac
  by_cases hit : 0 < s.initial_time
  · rw [if_pos hit]
    have hit' : (0 : ℚ) < (s.initial_time : ℚ) := by exact_mod_cast hit
    have hle : (s.time_left : ℚ) / (s.initial_time : ℚ) ≤ 1 := by
      rw [div_le_one hit']
      exact_mod_cast h
    have hge : (0 : ℚ) ≤ (s.time_left : ℚ) / (s.initial_time : ℚ) :=
      div_nonneg (by positivity) (le_of_lt hit')
    exact ⟨le_min (by linarith) (by norm_num), min_le_right _ _,
      fun _ => min_eq_left (by linarith)⟩
  · rw [if_neg hit]
    exact ⟨le_refl 0, by norm_num, fun hc => absurd hc hit⟩

/-- C10: in every state reachable from the freshly initialised session
state by configure / start / pause / timer passes (including expiry),
`time_left ≤ initial_time` holds, so the progress fraction the UI shows
lies in `[0, 1]`, and whenever `initial_time > 0` it equals
`1 - time_left / initial_time`. -/
theorem c10_progress_invariant (evs : List Ev) (f : FileState) :
    (run evs ⟨initTimer, f⟩).timer.time_left ≤
      (run evs ⟨initTimer, f⟩).timer.initial_time ∧
    0 ≤ progressFrac (run evs ⟨initTimer, f⟩).timer ∧
    progressFrac (run evs ⟨initTimer, f⟩).timer ≤ 1 ∧
    (0 < (run evs ⟨initTimer, f⟩).timer.initial_time →
      progressFrac (run evs ⟨initTimer, f⟩).timer =
        1 - ((run evs ⟨initTimer, f⟩).timer.time_left : ℚ) /
            ((run evs ⟨initTimer, f⟩).timer.initial_time : ℚ)) := by
  have hinv : timerInv (run evs ⟨initTimer, f⟩) :=
    run_timerInv evs _ (by simp [timerInv, initTimer])
  obtain ⟨h1, h2, h3⟩ := progressFrac_bounds _ hinv
  exact ⟨hinv, h1, h2, h3⟩

/-- Witness for `c10_progress_invariant` one tick into a one-minute
session: the configured time is positive and the reported progress is
exactly `1 - 59/60`. -/
theorem c10_progress_invariant_witness :
    0 < (run [Ev.configure 0 1, Ev.startBtn,
          Ev.timerPass "2024-01-01 00:00" "General" "Study Session"]
        ⟨initTimer, FileState.absent⟩).timer.initial_time ∧
    progressFrac (run [Ev.configure 0 1, Ev.startBtn,
          Ev.timerPass "2024-01-01 00:00" "General" "Study Session"]
        ⟨initTimer, FileState.absent⟩).timer =
      1 - ((run [Ev.configure 0 1, Ev.startBtn,
          Ev.timerPass "2024-01-01 00:00" "General" "Study Session"]
        ⟨initTimer, FileState.absent⟩).timer.time_left : ℚ) /
          ((run [Ev.configure 0 1, Ev.startBtn,
          Ev.timerPass "2024-01-01 00:00" "General" "Study Session"]
        ⟨initTimer, FileState.absent⟩).timer.initial_time : ℚ) :=
  ⟨by decide,
   (c10_progress_invariant [Ev.configure 0 1, Ev.startBtn,
      Ev.timerPass "2024-01-01 00:00" "General" "Study Session"]
      FileState.absent).2.2.2 (by decide)⟩
